import Mathlib

/-
Verification development for the jeprofl sampling heap profiler.

The Rust sources are shallowly embedded: Rust u64 / u32 values are
modelled as Nat together with explicit `% 2 ^ 64` (wrapping) or
`min _ (2 ^ 64 - 1)` (saturating) arithmetic at the operations where the
source performs them; fallible operations return Option / Except;
external services (the blazesym symbolizer, the kernel stack-trace map)
are abstracted as function parameters.
-/

/-! ## Machine-integer arithmetic (u64 as Nat) -/

/-- Largest value of a Rust u64. -/
def U64_MAX : Nat := 2 ^ 64 - 1

/-- Rust u64::saturating_add on values already in range. -/
def u64_saturating_add (a b : Nat) : Nat := min (a + b) U64_MAX

/-- Rust release-mode u64 addition of 1 (the bare bucket update in
Histogram::increment compiles to a wrapping add; in debug builds it
aborts on overflow, and in no build does it saturate). -/
def u64_wrapping_succ (a : Nat) : Nat := (a + 1) % 2 ^ 64

/-! ## Shared schema: jeprof-common/src/lib.rs -/

/-- Fuel-bounded floor-log2, structurally recursive so that concrete
histograms compute inside proofs. With 64 units of fuel it agrees with
Nat.log2 on every u64 value (proved in ilog2_eq_log2 below). -/
def ilog2_aux : Nat → Nat → Nat
  | 0, _ => 0
  | fuel + 1, n => if n ≥ 2 then ilog2_aux fuel (n / 2) + 1 else 0

/-- Model of u64::ilog2 (floor of log2; the source only calls it on a
non-zero u64 value). -/
def ilog2 (n : Nat) : Nat := ilog2_aux 64 n

/-- Upper bucket index bound: ilog2 of 16 GiB, as computed in the source
constant MAX_TRACKED_ALLOCATION_SIZE. -/
def MAX_TRACKED_ALLOCATION_SIZE : Nat := ilog2 (16 * (1024 * 1024 * 1024))

/-- HistogramKey: pid and stack id packed into one 64-bit word, cpu in a
second word. Field values are kept below 2 ^ 64. -/
structure HistogramKey where
  pid_stack : Nat
  cpu : Nat
deriving DecidableEq, Repr

/-- HistogramKey::new. The u32 arguments are modelled by truncating the
Nat inputs to 32 bits; the packing is (pid as u64) << 32 | stack_id. -/
def HistogramKey.new (pid stack_id cpu : Nat) : HistogramKey :=
  { pid_stack := ((pid % 2 ^ 32) <<< 32) ||| (stack_id % 2 ^ 32),
    cpu := cpu % 2 ^ 32 }

/-- UnpackedHistogramKey from the source. -/
structure UnpackedHistogramKey where
  pid : Nat
  stack_id : Nat
  cpu : Nat
deriving DecidableEq, Repr

/-- HistogramKey::into_parts: pid is the high 32 bits, stack_id the low
32 bits (the Rust cast to u32 truncates), cpu truncated to u32. -/
def HistogramKey.into_parts (k : HistogramKey) : UnpackedHistogramKey :=
  { pid := (k.pid_stack >>> 32) % 2 ^ 32,
    stack_id := k.pid_stack % 2 ^ 32,
    cpu := k.cpu % 2 ^ 32 }

/-- Histogram: a list of bucket counters (length 34 in the source) and a
running total of sampled sizes. -/
structure Histogram where
  data : List Nat
  total : Nat
deriving DecidableEq, Repr

/-- Histogram::new: all buckets zero, total zero. -/
def Histogram.new : Histogram :=
  { data := List.replicate MAX_TRACKED_ALLOCATION_SIZE 0, total := 0 }

/-- Histogram::increment. A zero value is ignored; otherwise the bucket
at index ilog2(value) is bumped by a plain (wrapping) add of 1 when the
index is in range (data.get_mut returning None otherwise, which
List.set models by leaving an out-of-range index unchanged), and the
total is updated with a saturating add of value. -/
def Histogram.increment (h : Histogram) (value : Nat) : Histogram :=
  if value = 0 then h
  else
    let pow2 := ilog2 value
    { data := h.data.set pow2 (u64_wrapping_succ (h.data.getD pow2 0)),
      total := u64_saturating_add h.total value }

/-- Histogram::merge: saturating add of the totals and of each pair of
buckets (iter_mut zip truncates to the shorter list, as zipWith does). -/
def Histogram.merge (h other : Histogram) : Histogram :=
  { total := u64_saturating_add h.total other.total,
    data := List.zipWith u64_saturating_add h.data other.data }

/-- Histogram::total_count: sum of the buckets, as the wrapping u64 sum
the source's iterator sum performs. -/
def Histogram.total_count (h : Histogram) : Nat :=
  h.data.foldl (fun acc x => (acc + x) % 2 ^ 64) 0

/-! ## In-kernel probe: jeprofl-ebpf/src/main.rs -/

/-- Probe-visible state for one invocation of the uprobe. The config
cells of the per-CPU CONFIG array and the helper results are snapshots:
a None models a failed map / argument read. -/
structure ProbeCtx where
  sample_every_cell : Option Nat
  count_cell : Option Nat
  arg0 : Option Nat
  min_alloc_cell : Option Nat
  max_alloc_cell : Option Nat
  stack_id : Except Nat Nat
  pid_tgid : Nat
  cpu : Nat

/-- should_process from the probe. Returns the sampling decision and the
updated SAMPLE_COUNT cell. Absent or zero SAMPLE_EVERY samples every
call; an unreadable counter cell (get_ptr_mut or as_mut yielding
nothing) also samples. Otherwise the counter is bumped (wrapping u64)
and the call is sampled when the counter is a multiple of
SAMPLE_EVERY. -/
def should_process (sample_every_cell : Option Nat) (count_cell : Option Nat) :
    Bool × Option Nat :=
  match sample_every_cell with
  | none => (true, count_cell)
  | some v =>
    if v = 0 then (true, count_cell)
    else
      match count_cell with
      | none => (true, none)
      | some ctr =>
        let ctr1 := (ctr + 1) % 2 ^ 64
        (decide (ctr1 % v = 0), some ctr1)

/-- Outcome of one probe invocation, distinguishing the early-return
sites of try_malloc. skippedSampling and rangeFiltered return Ok(0),
argReadFailed and stackFailed return Err(0); recorded reaches
update_hist with the given arguments. -/
inductive MallocOutcome where
  | skippedSampling
  | argReadFailed
  | rangeFiltered
  | stackFailed
  | recorded (size pid stack_id cpu : Nat)
deriving DecidableEq, Repr

/-- try_malloc from the probe, up to the update_hist call: sampling
gate, argument read at index 0, range filter with accept-all defaults
for unreadable MIN/MAX cells, stack-id capture, key-component
formation (pid is the low 32 bits of pid_tgid; the stack id is cast to
u32). -/
def try_malloc (ctx : ProbeCtx) : MallocOutcome :=
  let proceed := (should_process ctx.sample_every_cell ctx.count_cell).1
  if !proceed then MallocOutcome.skippedSampling
  else
    match ctx.arg0 with
    | none => MallocOutcome.argReadFailed
    | some size =>
      let min_size := ctx.min_alloc_cell.getD 0
      let max_size := ctx.max_alloc_cell.getD U64_MAX
      if size ≤ min_size ∨ size ≥ max_size then MallocOutcome.rangeFiltered
      else
        match ctx.stack_id with
        | Except.error _ => MallocOutcome.stackFailed
        | Except.ok sid =>
          MallocOutcome.recorded size (ctx.pid_tgid % 2 ^ 32) (sid % 2 ^ 32) ctx.cpu

/-! ## Resolver: jeprof/src/resolver.rs -/

/-- OwnedSymbol from the resolver. -/
structure OwnedSymbol where
  address : Nat
  symbol : String
deriving DecidableEq, Repr

/-- ResolvedStackTrace from the resolver. -/
structure ResolvedStackTrace where
  symbols : List OwnedSymbol
deriving DecidableEq, Repr

/-- One symbolizer answer for one frame, as the blazesym Symbolized
enum: a resolved symbol with its address, or an unknown marker with a
reason rendered to a string. -/
inductive Symbolized where
  | sym (addr : Nat) (name : String)
  | unknown (reason : String)
deriving DecidableEq, Repr

/-- Outcome of Resolver::resolve_stacktrace: the function can abort via
the unwrap on NonZeroU32::new(pid), propagate a symbolizer error, or
return the resolved trace. -/
inductive ResolveOutcome where
  | panicked
  | failed (e : Nat)
  | resolved (t : ResolvedStackTrace)
deriving DecidableEq, Repr

/-- Resolver::resolve_stacktrace. The external blazesym call is
abstracted as the symbolize parameter (taking the pid and the frame
addresses). The function first builds Pid::Pid(NonZeroU32::new(pid)
.unwrap()), which aborts whenever pid is zero, before any other work;
on a symbolizer error the error propagates; on success every Sym answer
keeps its address and name and every Unknown answer becomes address 0
with the reason as the symbol text. -/
def resolve_stacktrace (symbolize : Nat → List Nat → Except Nat (List Symbolized))
    (stacktrace : List Nat) (pid : Nat) : ResolveOutcome :=
  if pid = 0 then ResolveOutcome.panicked
  else
    match symbolize pid stacktrace with
    | Except.error e => ResolveOutcome.failed e
    | Except.ok syms =>
      ResolveOutcome.resolved
        { symbols := syms.map fun s =>
            match s with
            | Symbolized.sym addr name => { address := addr, symbol := name }
            | Symbolized.unknown reason => { address := 0, symbol := reason } }

/-! ## Collector: jeprof/src/collector.rs -/

/-- The two retention thresholds passed to spawn_collector. -/
structure RetentionConfig where
  skip_total_alloc_size_lower_than : Nat
  skip_total_count_lower_than : Nat
deriving DecidableEq, Repr

/-- The continue-condition of the per-shard loop: a shard is skipped
when its total is under the size threshold AND its bucket count sum is
under the count threshold. -/
def shard_skipped (cfg : RetentionConfig) (h : Histogram) : Prop :=
  h.total < cfg.skip_total_alloc_size_lower_than ∧
    h.total_count < cfg.skip_total_count_lower_than

instance (cfg : RetentionConfig) (h : Histogram) : Decidable (shard_skipped cfg h) :=
  inferInstanceAs (Decidable (_ ∧ _))

/-- One iteration of the outer key loop of a collector sweep, threading
the pair (was_skiped_on_cpus, keys_to_drop). The inner per-CPU loop
clears the flag on every shard that is not skipped; afterwards the key
is inserted into the drop set when the flag is set and removed
otherwise. The flag is NOT reinitialised here: exactly as in the
source, it is set to true once per sweep, before the key loop. -/
def sweep_key_step (cfg : RetentionConfig) (acc : Bool × Finset HistogramKey)
    (entry : HistogramKey × List Histogram) : Bool × Finset HistogramKey :=
  let flag := entry.2.foldl (fun f h => if shard_skipped cfg h then f else false) acc.1
  if flag then (flag, insert entry.1 acc.2) else (flag, acc.2.erase entry.1)

/-- One collector sweep over the histogram map (its entries in
iteration order, each with its per-CPU shard list), updating the
keys_to_drop set. was_skiped_on_cpus starts true once for the whole
sweep. Cancellation checks and the process calls do not affect the drop
set and are omitted here. -/
def sweep (cfg : RetentionConfig) (buf : List (HistogramKey × List Histogram))
    (keys_to_drop : Finset HistogramKey) : Finset HistogramKey :=
  (buf.foldl (sweep_key_step cfg) (true, keys_to_drop)).2

/-- All shards of an entry fail the retention filter (are skipped). -/
def all_shards_skipped (cfg : RetentionConfig) (shards : List Histogram) : Prop :=
  ∀ h ∈ shards, shard_skipped cfg h

instance (cfg : RetentionConfig) (shards : List Histogram) :
    Decidable (all_shards_skipped cfg shards) :=
  inferInstanceAs (Decidable (∀ h ∈ shards, shard_skipped cfg h))

/-- Association-list lookup keyed by the first component. -/
def assoc_find {α : Type} [DecidableEq α] {β : Type} (l : List (α × β)) (k : α) :
    Option β :=
  match l with
  | [] => none
  | p :: rest => if p.1 = k then some p.2 else assoc_find rest k

/-- Association-list insert-or-overwrite, as HashMap::insert. -/
def assoc_upsert {α : Type} [DecidableEq α] {β : Type} (l : List (α × β)) (k : α)
    (v : β) : List (α × β) :=
  (k, v) :: l.filter (fun p => ¬p.1 = k)

/-- EventProcessor: the latest shard snapshot per unpacked key and the
resolved-trace cache keyed by stack id, both HashMaps modelled as
association lists. -/
structure EventProcessor where
  allocations_stats : List (UnpackedHistogramKey × Histogram)
  resolved_traces : List (Nat × ResolvedStackTrace)
deriving DecidableEq, Repr

/-- EventProcessor::new. -/
def EventProcessor.new : EventProcessor :=
  { allocations_stats := [], resolved_traces := [] }

/-- EventProcessor::process. The stack-trace map read and the resolver
are abstracted as function parameters. Returns the updated processor
and whether resolve_stacktrace was invoked during this call: the stats
entry is overwritten with the latest shard; then, only when the stack
id has no cache entry, the raw trace is fetched (a failed fetch returns
silently without invoking the resolver), the resolver is invoked, and
only a successful resolution is inserted into the cache. -/
def EventProcessor.process (p : EventProcessor) (key : UnpackedHistogramKey)
    (event : Histogram)
    (resolver : List Nat → Nat → Except Nat ResolvedStackTrace)
    (stacktrace_map : Nat → Option (List Nat)) : EventProcessor × Bool :=
  let p1 : EventProcessor :=
    { p with allocations_stats := assoc_upsert p.allocations_stats key event }
  match assoc_find p1.resolved_traces key.stack_id with
  | some _ => (p1, false)
  | none =>
    match stacktrace_map key.stack_id with
    | none => (p1, false)
    | some trace =>
      match resolver trace key.pid with
      | Except.error _ => (p1, true)
      | Except.ok st =>
        ({ p1 with resolved_traces := (key.stack_id, st) :: p1.resolved_traces },
          true)

/-- Number of resolve_stacktrace invocations attributed to stack id sid
over a sequence of process calls starting from processor p. -/
def resolve_invocations
    (resolver : List Nat → Nat → Except Nat ResolvedStackTrace)
    (stacktrace_map : Nat → Option (List Nat)) (p : EventProcessor)
    (calls : List (UnpackedHistogramKey × Histogram)) (sid : Nat) : Nat :=
  match calls with
  | [] => 0
  | c :: cs =>
    let r := p.process c.1 c.2 resolver stacktrace_map
    (if r.2 = true ∧ c.1.stack_id = sid then 1 else 0) +
      resolve_invocations resolver stacktrace_map r.1 cs sid

/-! ## Reachable histograms -/

/-- Histograms constructible from Histogram::new by any finite sequence
of increment and merge operations. -/
inductive Reachable : Histogram → Prop where
  | new : Reachable Histogram.new
  | increment {h : Histogram} (v : Nat) : Reachable h → Reachable (h.increment v)
  | merge {a b : Histogram} : Reachable a → Reachable b → Reachable (a.merge b)

/-- Iterated self-merge, used to exhibit a concrete reachable histogram
with a saturated total. -/
def double_iter : Nat → Histogram → Histogram
  | 0, h => h
  | n + 1, h => double_iter n (h.merge h)

/-- The candidate histogram invariant: total in u64 range, every bucket
in u64 range, every bucket at most total, and the bucket sum at most
total unless the total has saturated. -/
def HistInv (h : Histogram) : Prop :=
  h.total ≤ U64_MAX ∧
  (∀ x ∈ h.data, x ≤ U64_MAX) ∧
  (∀ i, h.data.getD i 0 ≤ h.total) ∧
  (h.data.sum ≤ h.total ∨ h.total = U64_MAX)

/-- A reachable histogram with a saturated total: one increment of 1,
64 self-merges (saturating bucket 0 and the total at u64::MAX), then
one increment of 2 that bumps bucket 1 past the saturated total. -/
def c5_bad_hist : Histogram :=
  (double_iter 64 (Histogram.new.increment 1)).increment 2

/-! ## Concrete instances used by individual claims -/

/-- A histogram whose bucket 0 already holds u64::MAX. -/
def c1_full_bucket_hist : Histogram :=
  { data := (List.replicate MAX_TRACKED_ALLOCATION_SIZE 0).set 0 U64_MAX,
    total := 0 }

/-- A histogram whose bucket 1 already holds u64::MAX. -/
def c4_full_bucket_hist : Histogram :=
  { data := (List.replicate MAX_TRACKED_ALLOCATION_SIZE 0).set 1 U64_MAX,
    total := 0 }

/-- A probe context with the accept-all configuration (MIN_ALLOC = 0,
MAX_ALLOC = u64::MAX), an always-sampling gate, and an allocation size
argument of u64::MAX. -/
def c3_probe_ctx : ProbeCtx :=
  { sample_every_cell := some 0, count_cell := some 0, arg0 := some U64_MAX,
    min_alloc_cell := some 0, max_alloc_cell := some U64_MAX,
    stack_id := Except.ok 1, pid_tgid := 1, cpu := 0 }

/-- A probe context identical to c3_probe_ctx but with size 5. -/
def c3_witness_ctx : ProbeCtx :=
  { sample_every_cell := some 0, count_cell := some 0, arg0 := some 5,
    min_alloc_cell := some 0, max_alloc_cell := some U64_MAX,
    stack_id := Except.ok 1, pid_tgid := 1, cpu := 0 }

/-- Retention thresholds for the C2 scenario (the CLI defaults:
skip-size 1, skip-count 1000). -/
def c2_cfg : RetentionConfig :=
  { skip_total_alloc_size_lower_than := 1, skip_total_count_lower_than := 1000 }

/-- First key of the C2 sweep. -/
def c2_key1 : HistogramKey := HistogramKey.new 1 1 0

/-- Second key of the C2 sweep. -/
def c2_key2 : HistogramKey := HistogramKey.new 1 2 0

/-- A two-entry histogram map snapshot: the first key has one shard
that passes the retention filter (total 4096 ≥ 1) and the second key
has a single all-zero shard that fails it on every CPU. -/
def c2_buf : List (HistogramKey × List Histogram) :=
  [(c2_key1, [Histogram.new.increment 4096]), (c2_key2, [Histogram.new])]

/-- A resolver that fails every invocation. -/
def c8_failing_resolver : List Nat → Nat → Except Nat ResolvedStackTrace :=
  fun _ _ => Except.error 0

/-- A stack-trace map holding an (empty) raw trace for every id. -/
def c8_stack_map : Nat → Option (List Nat) := fun _ => some []

/-- The key processed twice in the C8 counterexample run. -/
def c8_key : UnpackedHistogramKey := { pid := 1, stack_id := 7, cpu := 0 }

/-- A resolver that succeeds on every invocation with an empty trace. -/
def c8_ok_resolver : List Nat → Nat → Except Nat ResolvedStackTrace :=
  fun _ _ => Except.ok { symbols := [] }

/-! ## Arithmetic helper lemmas -/

theorem ilog2_aux_eq_log2 (fuel : Nat) :
    ∀ n : Nat, n < 2 ^ fuel → ilog2_aux fuel n = Nat.log2 n := by
  induction fuel with
  | zero =>
    intro n hn
    interval_cases n
    simp [ilog2_aux]
  | succ f ih =>
    intro n hn
    by_cases h2 : n ≥ 2
    · have hdiv : n / 2 < 2 ^ f := by
        have : n < 2 ^ f * 2 := by
          rw [← Nat.pow_succ]
          exact hn
        omega
      have hstep : Nat.log2 n = Nat.log2 (n / 2) + 1 := by
        conv_lhs => rw [Nat.log2]
        rw [if_pos h2]
      rw [ilog2_aux, if_pos h2, ih _ hdiv, hstep]
    · rw [ilog2_aux, if_neg h2, Nat.log2, if_neg h2]

/-- On every u64 value the fuel-bounded ilog2 agrees with Nat.log2, so
the bucket index used by the model is the floor of log2. -/
theorem ilog2_eq_log2 (n : Nat) (hn : n < 2 ^ 64) : ilog2 n = Nat.log2 n :=
  ilog2_aux_eq_log2 64 n hn

theorem u64_saturating_add_comm (a b : Nat) :
    u64_saturating_add a b = u64_saturating_add b a := by
  simp [u64_saturating_add, Nat.add_comm]

theorem u64_saturating_add_assoc (a b c : Nat) :
    u64_saturating_add (u64_saturating_add a b) c =
      u64_saturating_add a (u64_saturating_add b c) := by
  simp only [u64_saturating_add, Nat.min_def]
  split <;> split <;> split <;> split <;> omega

theorem u64_saturating_add_le_max (a b : Nat) :
    u64_saturating_add a b ≤ U64_MAX := by
  simp [u64_saturating_add]

theorem u64_saturating_add_mono {a a' b b' : Nat} (ha : a ≤ a') (hb : b ≤ b') :
    u64_saturating_add a b ≤ u64_saturating_add a' b' := by
  simp only [u64_saturating_add, Nat.min_def]
  split <;> split <;> omega

/-! ## List helper lemmas -/

theorem zipWith_sat_assoc :
    ∀ a b c : List Nat,
      List.zipWith u64_saturating_add (List.zipWith u64_saturating_add a b) c =
        List.zipWith u64_saturating_add a (List.zipWith u64_saturating_add b c)
  | [], _, _ => by simp
  | _ :: _, [], _ => by simp
  | _ :: _, _ :: _, [] => by simp
  | x :: a, y :: b, z :: c => by
    simp [zipWith_sat_assoc a b c, u64_saturating_add_assoc]

theorem zipWith_sat_sum_le :
    ∀ a b : List Nat,
      (List.zipWith u64_saturating_add a b).sum ≤ a.sum + b.sum
  | [], _ => by simp
  | _ :: _, [] => by simp
  | x :: a, y :: b => by
    simp only [List.zipWith_cons_cons, List.sum_cons]
    have h1 := zipWith_sat_sum_le a b
    have h2 : u64_saturating_add x y ≤ x + y := Nat.min_le_left _ _
    omega

theorem zipWith_sat_mem_le_max :
    ∀ (a b : List Nat) (x : Nat), x ∈ List.zipWith u64_saturating_add a b → x ≤ U64_MAX
  | [], _, x, hx => by simp at hx
  | _ :: _, [], x, hx => by simp at hx
  | y :: a, z :: b, x, hx => by
    rcases List.mem_cons.mp hx with h | h
    · exact h ▸ u64_saturating_add_le_max y z
    · exact zipWith_sat_mem_le_max a b x h

theorem zipWith_sat_getD_le (a b : List Nat) (i : Nat) :
    (List.zipWith u64_saturating_add a b).getD i 0 ≤
      u64_saturating_add (a.getD i 0) (b.getD i 0) := by
  induction a generalizing b i with
  | nil => simp
  | cons x a ih =>
    cases b with
    | nil => simp
    | cons y b =>
      cases i with
      | zero => simp
      | succ i => simpa using ih b i

theorem sum_set_le (l : List Nat) :
    ∀ (i x d : Nat), x ≤ l.getD i 0 + d → (l.set i x).sum ≤ l.sum + d := by
  induction l with
  | nil => intro i x d _; simp
  | cons a t ih =>
    intro i x d hx
    cases i with
    | zero =>
      simp only [List.getD_cons_zero] at hx
      simp only [List.set_cons_zero, List.sum_cons]
      omega
    | succ i =>
      simp only [List.getD_cons_succ] at hx
      simp only [List.set_cons_succ, List.sum_cons]
      have := ih i x d hx
      omega

theorem getD_set_self (l : List Nat) (i x : Nat) (hi : i < l.length) :
    (l.set i x).getD i 0 = x := by
  rw [List.getD_eq_getElem?_getD, List.getElem?_set_self hi]
  rfl

theorem getD_set_ne (l : List Nat) (i j x : Nat) (hij : i ≠ j) :
    (l.set i x).getD j 0 = l.getD j 0 := by
  rw [List.getD_eq_getElem?_getD, List.getElem?_set_ne hij, ← List.getD_eq_getElem?_getD]

theorem getD_of_length_le (l : List Nat) (i : Nat) (hi : l.length ≤ i) :
    l.getD i 0 = 0 := by
  rw [List.getD_eq_getElem?_getD, List.getElem?_eq_none hi]
  rfl

/-! ## C9: resolve_stacktrace with pid = 0 -/

/-- C9: Resolver::resolve_stacktrace called with pid = 0 aborts via the
unwrap of NonZeroU32::new(0) — for every symbolizer behavior and every
input stack trace — instead of returning an error value. -/
theorem resolve_stacktrace_pid_zero_panics
    (symbolize : Nat → List Nat → Except Nat (List Symbolized))
    (stacktrace : List Nat) :
    resolve_stacktrace symbolize stacktrace 0 = ResolveOutcome.panicked := by
  simp [resolve_stacktrace]

/-! ## C10: the sampling gate fails open -/

/-- C10: should_process returns true whenever the SAMPLE_EVERY config
cell is absent or zero, and whenever the per-CPU SAMPLE_COUNT cell
cannot be read, so a sample is never dropped because a configuration
read failed. -/
theorem should_process_fails_open :
    (∀ count_cell : Option Nat, (should_process none count_cell).1 = true) ∧
    (∀ count_cell : Option Nat, (should_process (some 0) count_cell).1 = true) ∧
    (∀ sample_every_cell : Option Nat,
      (should_process sample_every_cell none).1 = true) := by
  refine ⟨fun _ => rfl, fun _ => rfl, fun se => ?_⟩
  match se with
  | none => rfl
  | some v =>
    by_cases hv : v = 0 <;> simp [should_process, hv]

/-! ## C6: merge is commutative and associative -/

/-- C6: Histogram::merge is commutative and associative: every bucket
and the total agree between merging b into a and merging a into b, and
between the two associations of a three-way merge, under the saturating
addition the source uses for buckets and totals. -/
theorem histogram_merge_comm_and_assoc (a b c : Histogram) :
    a.merge b = b.merge a ∧ (a.merge b).merge c = a.merge (b.merge c) := by
  refine ⟨?_, ?_⟩
  · cases a; cases b
    simp [Histogram.merge, u64_saturating_add_comm,
      List.zipWith_comm_of_comm _ u64_saturating_add_comm]
  · cases a; cases b; cases c
    simp [Histogram.merge, u64_saturating_add_assoc, zipWith_sat_assoc]

/-! ## C7: HistogramKey round-trip -/

/-- C7: for all pid, stack_id, cpu below 2 ^ 32, into_parts inverts
HistogramKey::new, returning exactly the packed triple. -/
theorem histogram_key_roundtrip (pid stack_id cpu : Nat)
    (hp : pid < 2 ^ 32) (hs : stack_id < 2 ^ 32) (hc : cpu < 2 ^ 32) :
    (HistogramKey.new pid stack_id cpu).into_parts =
      { pid := pid, stack_id := stack_id, cpu := cpu } := by
  have hpack : ((pid % 2 ^ 32) <<< 32) ||| (stack_id % 2 ^ 32) =
      2 ^ 32 * pid + stack_id := by
    rw [Nat.mod_eq_of_lt hp, Nat.mod_eq_of_lt hs, Nat.shiftLeft_eq, Nat.mul_comm]
    exact (Nat.mul_add_lt_is_or hs pid).symm
  simp only [HistogramKey.new, HistogramKey.into_parts, hpack,
    Nat.shiftRight_eq_div_pow, UnpackedHistogramKey.mk.injEq]
  refine ⟨?_, ?_, ?_⟩ <;> omega

/-- Witness for histogram_key_roundtrip at (5, 7, 3). -/
theorem histogram_key_roundtrip_witness :
    (5 : Nat) < 2 ^ 32 ∧
      (HistogramKey.new 5 7 3).into_parts = { pid := 5, stack_id := 7, cpu := 3 } :=
  ⟨by decide, histogram_key_roundtrip 5 7 3 (by decide) (by decide) (by decide)⟩

/-! ## C1: the bucket update does not saturate -/

/-- C1 failing input: with data[0] = u64::MAX, increment(1) — whose
bucket index is ilog2 1 = 0 — performs a bare (wrapping) add of 1, so
the counter wraps to 0 instead of staying at u64::MAX as the claimed
saturating addition would. -/
theorem c1_increment_wraps_full_bucket :
    c1_full_bucket_hist.data.getD 0 0 = U64_MAX ∧
    ilog2 1 = 0 ∧
    (c1_full_bucket_hist.increment 1).data.getD 0 0 = 0 ∧
    (c1_full_bucket_hist.increment 1).data.getD 0 0 ≠ U64_MAX := by
  refine ⟨by decide, by decide, by decide, by decide⟩

/-! ## C4: exact effect of increment away from the wrap corner -/

/-- C4 counterexample: at a bucket already holding u64::MAX, increment
does not increase the bucket by 1 (it wraps to 0), refuting the claim
for the histogram c4_full_bucket_hist with v = 2. -/
theorem c4_increment_not_plus_one_at_max :
    ¬((c4_full_bucket_hist.increment 2).data.getD (ilog2 2) 0 =
        c4_full_bucket_hist.data.getD (ilog2 2) 0 + 1) := by
  decide

/-- C4 amended: increment(0) is the identity, and for 1 ≤ v < 2 ^ 34,
provided the target bucket is below u64::MAX, increment(v) bumps
exactly the bucket at index ilog2 v (which equals the floor of log2 of
v) by 1, leaves every other bucket unchanged, and adds v to the total
with saturating addition. -/
theorem c4_increment_updates_single_bucket (h : Histogram) (v : Nat)
    (hlen : h.data.length = MAX_TRACKED_ALLOCATION_SIZE)
    (hv1 : 1 ≤ v) (hv2 : v < 2 ^ 34)
    (hb : h.data.getD (ilog2 v) 0 < U64_MAX) :
    (h.increment v).data.getD (ilog2 v) 0 = h.data.getD (ilog2 v) 0 + 1 ∧
    (∀ j, j ≠ ilog2 v → (h.increment v).data.getD j 0 = h.data.getD j 0) ∧
    (h.increment v).total = u64_saturating_add h.total v ∧
    ilog2 v = Nat.log2 v ∧
    ∀ h0 : Histogram, h0.increment 0 = h0 := by
  have hv0 : v ≠ 0 := by omega
  have hlog : ilog2 v = Nat.log2 v :=
    ilog2_eq_log2 v (lt_trans hv2 (by norm_num))
  have hmax34 : MAX_TRACKED_ALLOCATION_SIZE = 34 := by decide
  have hidx : ilog2 v < MAX_TRACKED_ALLOCATION_SIZE := by
    rw [hlog, hmax34]
    exact (Nat.log2_lt hv0).mpr hv2
  have hwrap : u64_wrapping_succ (h.data.getD (ilog2 v) 0) =
      h.data.getD (ilog2 v) 0 + 1 := by
    have hlt : h.data.getD (ilog2 v) 0 + 1 < 2 ^ 64 := by
      have := hb
      simp only [U64_MAX] at this
      omega
    exact Nat.mod_eq_of_lt hlt
  refine ⟨?_, ?_, ?_, hlog, ?_⟩
  · simp only [Histogram.increment, if_neg hv0]
    rw [getD_set_self _ _ _ (by omega), hwrap]
  · intro j hj
    simp only [Histogram.increment, if_neg hv0]
    exact getD_set_ne _ _ _ _ (fun hc => hj hc.symm)
  · simp [Histogram.increment, if_neg hv0]
  · intro h0
    simp [Histogram.increment]

/-- Witness for c4_increment_updates_single_bucket at Histogram.new and
v = 1023 (bucket index 9). -/
theorem c4_increment_updates_single_bucket_witness :
    (Histogram.new.increment 1023).data.getD (ilog2 1023) 0 =
        Histogram.new.data.getD (ilog2 1023) 0 + 1 ∧
      (Histogram.new.increment 1023).total =
        u64_saturating_add Histogram.new.total 1023 := by
  have hmain := c4_increment_updates_single_bucket Histogram.new 1023
    (by decide) (by decide) (by decide) (by decide)
  exact ⟨hmain.1, hmain.2.2.1⟩

/-! ## C3: the accept-all configuration and u64::MAX -/

/-- C3 counterexample: with MIN_ALLOC = 0 and MAX_ALLOC = u64::MAX the
non-zero size u64::MAX is still dropped at the range-filter step,
because the upper bound is exclusive (size >= MAX_ALLOC drops). -/
theorem c3_u64_max_size_filtered :
    0 < U64_MAX ∧ try_malloc c3_probe_ctx = MallocOutcome.rangeFiltered := by
  refine ⟨by decide, by decide⟩

/-- C3 amended: when the configuration holds MIN_ALLOC = 0 and
MAX_ALLOC = u64::MAX and the sampling gate passes, the probe drops the
read size s at the range-filter step exactly when s = 0 or
s ≥ u64::MAX; so every s with 0 < s < u64::MAX is accepted, but
s = u64::MAX itself is dropped. -/
theorem c3_range_filter_characterization (ctx : ProbeCtx) (s : Nat)
    (hmin : ctx.min_alloc_cell = some 0)
    (hmax : ctx.max_alloc_cell = some U64_MAX)
    (harg : ctx.arg0 = some s)
    (hsamp : (should_process ctx.sample_every_cell ctx.count_cell).1 = true) :
    try_malloc ctx = MallocOutcome.rangeFiltered ↔ s = 0 ∨ U64_MAX ≤ s := by
  simp only [try_malloc, hsamp, harg, hmin, hmax, Bool.not_true, Option.getD_some]
  by_cases hcond : s ≤ 0 ∨ s ≥ U64_MAX
  · rw [if_neg (by simp), if_pos hcond]
    constructor
    · intro _
      rcases hcond with h | h
      · exact Or.inl (by omega)
      · exact Or.inr h
    · intro _
      rfl
  · rw [if_neg (by simp), if_neg hcond]
    constructor
    · intro hcontra
      cases hstk : ctx.stack_id with
      | error e => rw [hstk] at hcontra; exact absurd hcontra (by simp)
      | ok sid => rw [hstk] at hcontra; exact absurd hcontra (by simp)
    · intro hrhs
      refine absurd ?_ hcond
      rcases hrhs with h | h
      · exact Or.inl (by omega)
      · exact Or.inr h

/-- Witness for c3_range_filter_characterization at size 5. -/
theorem c3_range_filter_characterization_witness :
    try_malloc c3_witness_ctx = MallocOutcome.rangeFiltered ↔
      (5 : Nat) = 0 ∨ U64_MAX ≤ 5 :=
  c3_range_filter_characterization c3_witness_ctx 5 rfl rfl rfl (by decide)

/-! ## C2: sweep drop-set accounting -/

/-- C2 failing run: every shard of c2_key2 fails the retention filter
in this sweep, yet c2_key2 is not queued for reclamation, because
was_skiped_on_cpus is initialised once per sweep (not once per key) and
c2_key1's passing shard already cleared it. The claimed iff fails in
the queue-when-all-fail direction; the key even gets removed from the
drop set it was in before the sweep. -/
theorem c2_all_failing_key_not_queued :
    (∀ e ∈ c2_buf, e.1 = c2_key2 → all_shards_skipped c2_cfg e.2) ∧
    c2_key2 ∉ sweep c2_cfg c2_buf ∅ ∧
    c2_key2 ∉ sweep c2_cfg c2_buf {c2_key2} := by
  refine ⟨by decide, by decide, by decide⟩

/-! ## C8: symbolizer invocation discipline -/

theorem assoc_find_cons {α : Type} [DecidableEq α] {β : Type}
    (a : α) (b : β) (l : List (α × β)) (k : α) :
    assoc_find ((a, b) :: l) k = if a = k then some b else assoc_find l k := rfl

/-- process never removes a cached stack id. -/
theorem process_preserves_cached
    (p : EventProcessor) (k : UnpackedHistogramKey) (e : Histogram)
    (r : List Nat → Nat → Except Nat ResolvedStackTrace)
    (m : Nat → Option (List Nat)) (sid : Nat)
    (hs : (assoc_find p.resolved_traces sid).isSome = true) :
    (assoc_find (p.process k e r m).1.resolved_traces sid).isSome = true := by
  unfold EventProcessor.process
  cases hfind : assoc_find p.resolved_traces k.stack_id with
  | some st => simpa [hfind] using hs
  | none =>
    cases hmap : m k.stack_id with
    | none => simpa [hfind, hmap] using hs
    | some tr =>
      cases hres : r tr k.pid with
      | error err => simpa [hfind, hmap, hres] using hs
      | ok st =>
        simp only [hfind, hmap, hres, assoc_find_cons]
        by_cases hk : k.stack_id = sid <;> simp [hk, hs]

/-- When the stack id of the processed key is cached, process does not
invoke the resolver and leaves the cache unchanged. -/
theorem process_cached_no_invocation
    (p : EventProcessor) (k : UnpackedHistogramKey) (e : Histogram)
    (r : List Nat → Nat → Except Nat ResolvedStackTrace)
    (m : Nat → Option (List Nat))
    (hs : (assoc_find p.resolved_traces k.stack_id).isSome = true) :
    (p.process k e r m).2 = false := by
  unfold EventProcessor.process
  cases hfind : assoc_find p.resolved_traces k.stack_id with
  | some st => simp [hfind]
  | none => rw [hfind] at hs; simp at hs

/-- process adds at most the processed key's own stack id to the
cache. -/
theorem process_adds_only_own_sid
    (p : EventProcessor) (k : UnpackedHistogramKey) (e : Histogram)
    (r : List Nat → Nat → Except Nat ResolvedStackTrace)
    (m : Nat → Option (List Nat)) (sid : Nat)
    (hns : ¬(assoc_find p.resolved_traces sid).isSome = true)
    (hk : k.stack_id ≠ sid) :
    ¬(assoc_find (p.process k e r m).1.resolved_traces sid).isSome = true := by
  unfold EventProcessor.process
  cases hfind : assoc_find p.resolved_traces k.stack_id with
  | some st => simpa [hfind] using hns
  | none =>
    cases hmap : m k.stack_id with
    | none => simpa [hfind, hmap] using hns
    | some tr =>
      cases hres : r tr k.pid with
      | error err => simpa [hfind, hmap, hres] using hns
      | ok st =>
        simp only [hfind, hmap, hres, assoc_find_cons]
        simp [hk, hns]

/-- Once a stack id is cached, no later process call in the run invokes
the resolver for it. -/
theorem invocations_zero_of_cached
    (r : List Nat → Nat → Except Nat ResolvedStackTrace)
    (m : Nat → Option (List Nat)) (sid : Nat) :
    ∀ (calls : List (UnpackedHistogramKey × Histogram)) (p : EventProcessor),
      (assoc_find p.resolved_traces sid).isSome = true →
      resolve_invocations r m p calls sid = 0 := by
  intro calls
  induction calls with
  | nil => intro p _; rfl
  | cons c cs ih =>
    intro p hp
    by_cases hk : c.1.stack_id = sid
    · have hflag : (p.process c.1 c.2 r m).2 = false :=
        process_cached_no_invocation p c.1 c.2 r m (hk ▸ hp)
      simp only [resolve_invocations, hflag]
      rw [ih _ (process_preserves_cached p c.1 c.2 r m sid hp)]
      simp
    · simp only [resolve_invocations]
      rw [ih _ (process_preserves_cached p c.1 c.2 r m sid hp)]
      simp [hk]

/-- With a resolver that succeeds on every invocation, any run from any
processor state invokes the resolver at most once per stack id. -/
theorem invocations_le_one_aux
    (r : List Nat → Nat → Except Nat ResolvedStackTrace)
    (m : Nat → Option (List Nat)) (sid : Nat)
    (hr : ∀ tr q, ∃ st, r tr q = Except.ok st) :
    ∀ (calls : List (UnpackedHistogramKey × Histogram)) (p : EventProcessor),
      resolve_invocations r m p calls sid ≤ 1 := by
  intro calls
  induction calls with
  | nil => intro p; simp [resolve_invocations]
  | cons c cs ih =>
    intro p
    by_cases hp : (assoc_find p.resolved_traces sid).isSome = true
    · rw [invocations_zero_of_cached r m sid (c :: cs) p hp]
      omega
    · by_cases hk : c.1.stack_id = sid
      · have hfind : assoc_find p.resolved_traces c.1.stack_id = none := by
          rw [hk]
          cases hval : assoc_find p.resolved_traces sid with
          | none => rfl
          | some st => rw [hval] at hp; simp at hp
        cases hmap : m c.1.stack_id with
        | none =>
          have hflag : (p.process c.1 c.2 r m).2 = false := by
            unfold EventProcessor.process
            simp [hfind, hmap]
          simp only [resolve_invocations, hflag]
          have htail := ih (p.process c.1 c.2 r m).1
          simp only [Bool.false_eq_true, false_and, if_false]
          omega
        | some tr =>
          obtain ⟨st, hok⟩ := hr tr c.1.pid
          have hflag : (p.process c.1 c.2 r m).2 = true := by
            unfold EventProcessor.process
            simp [hfind, hmap, hok]
          have hcached :
              (assoc_find (p.process c.1 c.2 r m).1.resolved_traces sid).isSome =
                true := by
            unfold EventProcessor.process
            simp only [hfind, hmap, hok]
            simp [assoc_find_cons, hk]
          simp only [resolve_invocations, hflag]
          rw [invocations_zero_of_cached r m sid cs _ hcached]
          simp [hk]
      · simp only [resolve_invocations]
        have htail := ih (p.process c.1 c.2 r m).1
        simp only [hk, and_false, if_false]
        omega

/-- C8 amended: across any sequence of EventProcessor::process calls
starting from a fresh processor, if every resolve_stacktrace invocation
succeeds then the symbolizer is invoked at most once per stack_id; a
failed invocation is not cached and may be retried by a later call for
the same stack_id. -/
theorem c8_resolver_invoked_at_most_once
    (r : List Nat → Nat → Except Nat ResolvedStackTrace)
    (m : Nat → Option (List Nat))
    (calls : List (UnpackedHistogramKey × Histogram)) (sid : Nat)
    (hr : ∀ tr q, ∃ st, r tr q = Except.ok st) :
    resolve_invocations r m EventProcessor.new calls sid ≤ 1 :=
  invocations_le_one_aux r m sid hr calls EventProcessor.new

/-- C8 counterexample: when the first resolution attempt fails, nothing
is cached, and a second process call for the same stack_id invokes
resolve_stacktrace again — two invocations for stack_id 7 in one run,
refuting at-most-once as stated. -/
theorem c8_resolver_reinvoked_after_failure :
    resolve_invocations c8_failing_resolver c8_stack_map EventProcessor.new
      [(c8_key, Histogram.new), (c8_key, Histogram.new)] 7 = 2 := by
  decide

/-- Witness for c8_resolver_invoked_at_most_once on a concrete
two-call run. -/
theorem c8_resolver_invoked_at_most_once_witness :
    resolve_invocations c8_ok_resolver c8_stack_map EventProcessor.new
      [(c8_key, Histogram.new), (c8_key, Histogram.new)] 7 ≤ 1 :=
  c8_resolver_invoked_at_most_once c8_ok_resolver c8_stack_map
    [(c8_key, Histogram.new), (c8_key, Histogram.new)] 7
    (fun _ _ => ⟨{ symbols := [] }, rfl⟩)

/-! ## C5: histogram invariants over reachable states -/

theorem getD_mem_of_lt (l : List Nat) (i : Nat) (hi : i < l.length) :
    l.getD i 0 ∈ l := by
  rw [List.getD_eq_getElem?_getD, List.getElem?_eq_getElem hi, Option.getD_some]
  exact List.getElem_mem _

theorem getD_replicate_zero (n i : Nat) :
    (List.replicate n (0 : Nat)).getD i 0 = 0 := by
  rw [List.getD_eq_getElem?_getD, List.getElem?_replicate]
  split <;> rfl

theorem u64_saturating_add_eq_add_of_ne_max {a b : Nat}
    (h : u64_saturating_add a b ≠ U64_MAX) :
    u64_saturating_add a b = a + b ∧ a + b < U64_MAX := by
  by_cases hc : a + b ≤ U64_MAX
  · have h1 : u64_saturating_add a b = a + b := Nat.min_eq_left hc
    refine ⟨h1, ?_⟩
    rw [h1] at h
    omega
  · exact absurd
      (show u64_saturating_add a b = U64_MAX from Nat.min_eq_right (by omega)) h

theorem u64_saturating_add_ge_left (a b : Nat) (ha : a ≤ U64_MAX) :
    a ≤ u64_saturating_add a b :=
  Nat.le_min.mpr ⟨Nat.le_add_right _ _, ha⟩

theorem hist_inv_new : HistInv Histogram.new := by
  refine ⟨Nat.zero_le _, ?_, ?_, Or.inl ?_⟩
  · intro x hx
    rw [List.eq_of_mem_replicate hx]
    exact Nat.zero_le _
  · intro i
    simp [Histogram.new, getD_replicate_zero]
  · simp [Histogram.new, List.sum_replicate]

theorem hist_inv_increment (h : Histogram) (v : Nat) (hinv : HistInv h) :
    HistInv (h.increment v) := by
  obtain ⟨htot, hmem, hbnd, hsum⟩ := hinv
  by_cases hv : v = 0
  · simp only [Histogram.increment, if_pos hv]
    exact ⟨htot, hmem, hbnd, hsum⟩
  · simp only [Histogram.increment, if_neg hv]
    refine ⟨u64_saturating_add_le_max _ _, ?_, ?_, ?_⟩
    · show ∀ x ∈ h.data.set (ilog2 v) (u64_wrapping_succ (h.data.getD (ilog2 v) 0)),
        x ≤ U64_MAX
      intro x hx
      rcases List.mem_or_eq_of_mem_set hx with hmem2 | hx_eq
      · exact hmem x hmem2
      · subst hx_eq
        have hlt : u64_wrapping_succ (h.data.getD (ilog2 v) 0) < 2 ^ 64 :=
          Nat.mod_lt _ (by norm_num)
        simp only [U64_MAX]
        omega
    · show ∀ j,
        (h.data.set (ilog2 v) (u64_wrapping_succ (h.data.getD (ilog2 v) 0))).getD j 0 ≤
          u64_saturating_add h.total v
      intro j
      by_cases hji : j = ilog2 v
      · rw [hji]
        by_cases hlen : ilog2 v < h.data.length
        · rw [getD_set_self _ _ _ hlen]
          have hb_le : h.data.getD (ilog2 v) 0 ≤ U64_MAX :=
            hmem _ (getD_mem_of_lt _ _ hlen)
          by_cases hb_max : h.data.getD (ilog2 v) 0 = U64_MAX
          · have hzero : u64_wrapping_succ (h.data.getD (ilog2 v) 0) = 0 := by
              rw [hb_max]
              decide
            rw [hzero]
            exact Nat.zero_le _
          · have hb_lt : h.data.getD (ilog2 v) 0 < U64_MAX :=
              lt_of_le_of_ne hb_le hb_max
            have hwrap : u64_wrapping_succ (h.data.getD (ilog2 v) 0) =
                h.data.getD (ilog2 v) 0 + 1 := by
              apply Nat.mod_eq_of_lt
              simp only [U64_MAX] at hb_lt
              omega
            rw [hwrap]
            have h1 : h.data.getD (ilog2 v) 0 + 1 ≤ U64_MAX := by omega
            have h2 : h.data.getD (ilog2 v) 0 + 1 ≤ h.total + v := by
              have := hbnd (ilog2 v)
              omega
            exact Nat.le_min.mpr ⟨h2, h1⟩
        · rw [List.set_eq_of_length_le (le_of_not_lt hlen)]
          exact le_trans (hbnd _) (u64_saturating_add_ge_left _ _ htot)
      · rw [getD_set_ne _ _ _ _ (fun hc => hji hc.symm)]
        exact le_trans (hbnd j) (u64_saturating_add_ge_left _ _ htot)
    · show (h.data.set (ilog2 v) (u64_wrapping_succ (h.data.getD (ilog2 v) 0))).sum ≤
          u64_saturating_add h.total v ∨ u64_saturating_add h.total v = U64_MAX
      by_cases htmax : h.total = U64_MAX
      · right
        rw [htmax]
        exact Nat.min_eq_right (Nat.le_add_right _ _)
      · by_cases hsat : u64_saturating_add h.total v = U64_MAX
        · right
          exact hsat
        · left
          have hsum2 : h.data.sum ≤ h.total := by
            rcases hsum with hs | hs
            · exact hs
            · exact absurd hs htmax
          obtain ⟨hexact, _⟩ := u64_saturating_add_eq_add_of_ne_max hsat
          have hsetle :
              (h.data.set (ilog2 v) (u64_wrapping_succ (h.data.getD (ilog2 v) 0))).sum ≤
                h.data.sum + 1 := by
            apply sum_set_le
            have hmle : u64_wrapping_succ (h.data.getD (ilog2 v) 0) ≤
                h.data.getD (ilog2 v) 0 + 1 := Nat.mod_le _ _
            omega
          rw [hexact]
          omega

theorem hist_inv_merge (a b : Histogram) (ha : HistInv a) (hb : HistInv b) :
    HistInv (a.merge b) := by
  obtain ⟨hat, ham, hab, has⟩ := ha
  obtain ⟨hbt, hbm, hbb, hbs⟩ := hb
  simp only [Histogram.merge]
  refine ⟨u64_saturating_add_le_max _ _, ?_, ?_, ?_⟩
  · intro x hx
    exact zipWith_sat_mem_le_max _ _ x hx
  · intro i
    exact le_trans (zipWith_sat_getD_le _ _ _)
      (u64_saturating_add_mono (hab i) (hbb i))
  · show (List.zipWith u64_saturating_add a.data b.data).sum ≤
        u64_saturating_add a.total b.total ∨
          u64_saturating_add a.total b.total = U64_MAX
    by_cases hsat : u64_saturating_add a.total b.total = U64_MAX
    · right
      exact hsat
    · left
      obtain ⟨hexact, hlt⟩ := u64_saturating_add_eq_add_of_ne_max hsat
      have has2 : a.data.sum ≤ a.total := by
        rcases has with hs | hs
        · exact hs
        · exact absurd hs (by omega)
      have hbs2 : b.data.sum ≤ b.total := by
        rcases hbs with hs | hs
        · exact hs
        · exact absurd hs (by omega)
      have hz := zipWith_sat_sum_le a.data b.data
      rw [hexact]
      omega

theorem reachable_double_iter (n : Nat) :
    ∀ h : Histogram, Reachable h → Reachable (double_iter n h) := by
  induction n with
  | zero => intro h hr; exact hr
  | succ n ih => intro h hr; exact ih _ (Reachable.merge hr hr)

/-- Every histogram reachable from Histogram::new satisfies the
invariant HistInv. -/
theorem reachable_hist_inv (h : Histogram) (hr : Reachable h) : HistInv h := by
  induction hr with
  | new => exact hist_inv_new
  | increment v _ ih => exact hist_inv_increment _ v ih
  | merge _ _ iha ihb => exact hist_inv_merge _ _ iha ihb

set_option maxRecDepth 10000 in
/-- C5 counterexample: c5_bad_hist is reachable from Histogram::new by
increment and merge operations, yet the sum of its bucket counters
strictly exceeds its (saturated) total, refuting the claimed
sum-of-counters invariant. -/
theorem c5_sum_exceeds_total_on_reachable :
    Reachable c5_bad_hist ∧ c5_bad_hist.total < c5_bad_hist.data.sum :=
  ⟨Reachable.increment 2
      (reachable_double_iter 64 _ (Reachable.increment 1 Reachable.new)),
    by decide⟩

/-- C5 amended: for every histogram reachable from Histogram::new by
increment and merge operations, every bucket counter is at most the
total; and as long as the total has not saturated at u64::MAX, the sum
of all bucket counters is also at most the total. -/
theorem c5_reachable_histogram_invariant (h : Histogram) (hr : Reachable h) :
    (∀ i, h.data.getD i 0 ≤ h.total) ∧
    (h.total < U64_MAX → h.data.sum ≤ h.total) := by
  obtain ⟨htot, hmem, hbnd, hsum⟩ := reachable_hist_inv h hr
  refine ⟨hbnd, fun hlt => ?_⟩
  rcases hsum with hs | hs
  · exact hs
  · omega

/-- Witness for c5_reachable_histogram_invariant on the reachable
histogram obtained from one increment of 1023. -/
theorem c5_reachable_histogram_invariant_witness :
    (Histogram.new.increment 1023).data.getD 9 0 ≤
        (Histogram.new.increment 1023).total ∧
      (Histogram.new.increment 1023).data.sum ≤
        (Histogram.new.increment 1023).total := by
  have hmain := c5_reachable_histogram_invariant (Histogram.new.increment 1023)
    (Reachable.increment 1023 Reachable.new)
  exact ⟨hmain.1 9, hmain.2 (by decide)⟩
